import Mathlib

/-!
Shallow embedding of the sonora playback core
(`src/core/playback/BasicMusicPlayer.cpp`).

Each control operation of `BasicMusicPlayer` is modelled as a function
`Player → Player × List Event`: the new player state together with the
ordered list of observer notifications the operation fires.  Machine
doubles (`mCurrentPosition`, `mDuration`) are modelled as rationals; the
track queue `std::queue<std::string>` is a list with its front at the
head; observer handles (`shared_ptr` identity) are modelled as naturals.
-/

namespace Sonora

/-- The `RepeatMode` enum of `IMusicPlayer.h`. -/
inductive RepeatMode
  | None
  | Single
  | All
deriving DecidableEq

/-- The `PlayerState` of the spec's state machine: Stopped / Playing / Paused. -/
inductive PlayerState
  | Stopped
  | Playing
  | Paused
deriving DecidableEq

/-- Observer notifications of `IPlaybackObserver`, in the order fired. -/
inductive Event
  | started
  | paused
  | stopped
  | trackChanged (uri : String)
  | progress (position duration : ℚ)
deriving DecidableEq

/-- The mutable fields of `BasicMusicPlayer` that the control operations
read and write (threads, mutexes and FFmpeg handles carry no modelled
state). -/
structure Player where
  mIsPlaying : Bool
  mIsPaused : Bool
  mShouldStop : Bool
  mCurrentPosition : ℚ
  mDuration : ℚ
  mCurrentTrack : String
  mRepeatMode : RepeatMode
  mShuffleMode : Bool
  mQueue : List String
deriving DecidableEq

/-- The state as the constructor `BasicMusicPlayer()` initialises it. -/
def initialPlayer : Player :=
  { mIsPlaying := false
    mIsPaused := false
    mShouldStop := false
    mCurrentPosition := 0
    mDuration := 0
    mCurrentTrack := ""
    mRepeatMode := RepeatMode.None
    mShuffleMode := false
    mQueue := [] }

/-- The spec's three-valued state, read off the two flags: `Paused` is a
sub-state of playing (`mIsPlaying ∧ mIsPaused`). -/
def Player.state (p : Player) : PlayerState :=
  if p.mIsPlaying then (if p.mIsPaused then PlayerState.Paused else PlayerState.Playing)
  else PlayerState.Stopped

/-- `BasicMusicPlayer::stop` (lines 95-110): if `mIsPlaying`, raise the
stop signal, clear both flags, join the worker, clear the current track
and position and fire playback-stopped; otherwise do nothing. -/
def stop (p : Player) : Player × List Event :=
  if p.mIsPlaying then
    ({ p with
        mShouldStop := true
        mIsPlaying := false
        mIsPaused := false
        mCurrentTrack := ""
        mCurrentPosition := 0 },
     [Event.stopped])
  else (p, [])

/-- `BasicMusicPlayer::play` (lines 52-79): stop the current playback,
swap the queue for one holding only `uri`, set the current track and the
flags, start a new worker, then fire track-changed(uri) and
playback-started (after any playback-stopped that `stop` fired). -/
def play (uri : String) (p : Player) : Player × List Event :=
  let s := stop p
  ({ s.1 with
      mQueue := [uri]
      mCurrentTrack := uri
      mIsPlaying := true
      mIsPaused := false
      mShouldStop := false },
   s.2 ++ [Event.trackChanged uri, Event.started])

/-- `BasicMusicPlayer::pause` (lines 81-86). -/
def pause (p : Player) : Player × List Event :=
  if p.mIsPlaying && !p.mIsPaused then ({ p with mIsPaused := true }, [Event.paused])
  else (p, [])

/-- `BasicMusicPlayer::resume` (lines 88-93). -/
def resume (p : Player) : Player × List Event :=
  if p.mIsPlaying && p.mIsPaused then ({ p with mIsPaused := false }, [Event.started])
  else (p, [])

/-- `BasicMusicPlayer::next` (lines 112-132): with at most one queued
entry, call `stop` and return; otherwise pop the front (the inner
empty-guard of the source is kept, though unreachable past the size
check) and `play` it. -/
def next (p : Player) : Player × List Event :=
  if p.mQueue.length ≤ 1 then stop p
  else
    match p.mQueue with
    | [] => (p, [])
    | t :: rest => play t { p with mQueue := rest }

/-- `BasicMusicPlayer::previous` (lines 134-140): replay the current
track when one is set. -/
def previous (p : Player) : Player × List Event :=
  if !p.mCurrentTrack.isEmpty then play p.mCurrentTrack p else (p, [])

/-- `BasicMusicPlayer::seek` (lines 142-147): store the position
directly and fire playback-progress. -/
def seek (position : ℚ) (p : Player) : Player × List Event :=
  ({ p with mCurrentPosition := position },
   [Event.progress position p.mDuration])

/-- `BasicMusicPlayer::enqueue` (lines 149-152): append to the queue. -/
def enqueue (uri : String) (p : Player) : Player × List Event :=
  ({ p with mQueue := p.mQueue ++ [uri] }, [])

/-- `BasicMusicPlayer::clearQueue` (lines 154-158). -/
def clearQueue (p : Player) : Player × List Event :=
  ({ p with mQueue := [] }, [])

/-- `BasicMusicPlayer::setRepeatMode` (lines 160-162). -/
def setRepeatMode (m : RepeatMode) (p : Player) : Player × List Event :=
  ({ p with mRepeatMode := m }, [])

/-- `BasicMusicPlayer::setShuffleMode` (lines 164-166). -/
def setShuffleMode (b : Bool) (p : Player) : Player × List Event :=
  ({ p with mShuffleMode := b }, [])

/-- `BasicMusicPlayer::getCurrentPosition` (lines 168-170). -/
def getCurrentPosition (p : Player) : ℚ := p.mCurrentPosition

/-- `BasicMusicPlayer::getDuration` (lines 172-174). -/
def getDuration (p : Player) : ℚ := p.mDuration

/-- `BasicMusicPlayer::isPlaying` (lines 176-178): playing and not paused. -/
def isPlaying (p : Player) : Bool := p.mIsPlaying && !p.mIsPaused

/-- The entry of `BasicMusicPlayer::playbackThreadFunction`
(lines 238-248).  `openAudioFile` delegates to the external rendering
backend, so its outcome is the parameter `openOk`: on failure clear
`mIsPlaying`, fire playback-stopped and return; on success set the
fallback duration 180 and reset the position. -/
def playbackWorkerOpen (openOk : Bool) (p : Player) : Player × List Event :=
  if !openOk then ({ p with mIsPlaying := false }, [Event.stopped])
  else ({ p with mDuration := 180, mCurrentPosition := 0 }, [])

/-- One polling iteration of the worker loop (lines 251-258): while
playing, not stop-signalled and not paused, store the elapsed time as
the position and fire playback-progress. -/
def workerTick (elapsed : ℚ) (p : Player) : Player × List Event :=
  if p.mIsPlaying && !p.mShouldStop && !p.mIsPaused then
    ({ p with mCurrentPosition := elapsed },
     [Event.progress elapsed p.mDuration])
  else (p, [])

/-- The completion branch of the worker loop (lines 261-274), taken when
the position reaches the duration: Single replays the current track, All
enqueues it and advances, None advances directly. -/
def handleTrackCompletion (p : Player) : Player × List Event :=
  match p.mRepeatMode with
  | RepeatMode.Single => play p.mCurrentTrack p
  | RepeatMode.All =>
      let q := enqueue p.mCurrentTrack p
      let n := next q.1
      (n.1, q.2 ++ n.2)
  | RepeatMode.None => next p

/-- `BasicMusicPlayer::addObserver` (lines 180-183): push onto the
registry.  Handles stand for `shared_ptr` identities. -/
def addObserver (h : ℕ) (observers : List ℕ) : List ℕ := observers ++ [h]

/-- `BasicMusicPlayer::removeObserver` (lines 185-197): the
erase-remove idiom keeps exactly the entries not equal to the handle. -/
def removeObserver (h : ℕ) (observers : List ℕ) : List ℕ :=
  observers.filter (fun o => o != h)

/-- The notify loops (lines 199-232): each observer is invoked in
registration order with no surrounding handler, so the first callback
that throws propagates its exception out of the notify method and the
remaining observers are never invoked.  Each registered observer is a
handle paired with its callback's outcome; the result is the list of
handles actually invoked together with the exception, if one escaped. -/
def notifyAll : List (ℕ × Except String Unit) → List ℕ × Option String
  | [] => ([], Option.none)
  | (i, Except.ok _) :: rest =>
      let r := notifyAll rest
      (i :: r.1, r.2)
  | (i, Except.error e) :: _ => ([i], Option.some e)

/-- One invocation of the public control surface, or one step the worker
takes on the shared state. -/
inductive Op
  | play (uri : String)
  | pause
  | resume
  | stop
  | next
  | previous
  | seek (position : ℚ)
  | enqueue (uri : String)
  | clearQueue
  | setRepeatMode (m : RepeatMode)
  | setShuffleMode (b : Bool)
  | workerOpen (openOk : Bool)
  | workerTick (elapsed : ℚ)
  | trackComplete

/-- Dispatch one operation to its model. -/
def applyOp : Op → Player → Player × List Event
  | Op.play uri, p => play uri p
  | Op.pause, p => pause p
  | Op.resume, p => resume p
  | Op.stop, p => stop p
  | Op.next, p => next p
  | Op.previous, p => previous p
  | Op.seek x, p => seek x p
  | Op.enqueue uri, p => enqueue uri p
  | Op.clearQueue, p => clearQueue p
  | Op.setRepeatMode m, p => setRepeatMode m p
  | Op.setShuffleMode b, p => setShuffleMode b p
  | Op.workerOpen ok, p => playbackWorkerOpen ok p
  | Op.workerTick t, p => workerTick t p
  | Op.trackComplete, p => handleTrackCompletion p

/-- Run a sequence of operations, keeping the resulting state. -/
def run (ops : List Op) (p : Player) : Player :=
  ops.foldl (fun q op => (applyOp op q).1) p

/-- The operation feeds no negative value into the position: its `seek`
argument, or the worker's elapsed time, is non-negative. -/
def opNonneg : Op → Prop
  | Op.seek x => 0 ≤ x
  | Op.workerTick t => 0 ≤ t
  | _ => True

instance : DecidablePred opNonneg := by
  intro op
  unfold opNonneg
  cases op <;> infer_instance

theorem stop_pos_nonneg (p : Player) (hp : 0 ≤ p.mCurrentPosition) :
    0 ≤ (stop p).1.mCurrentPosition := by
  unfold stop
  split <;> simp [hp]

theorem play_pos_nonneg (uri : String) (p : Player) (hp : 0 ≤ p.mCurrentPosition) :
    0 ≤ (play uri p).1.mCurrentPosition := by
  unfold play
  exact stop_pos_nonneg p hp

theorem next_pos_nonneg (p : Player) (hp : 0 ≤ p.mCurrentPosition) :
    0 ≤ (next p).1.mCurrentPosition := by
  unfold next
  split
  · exact stop_pos_nonneg p hp
  · match p.mQueue with
    | [] => exact hp
    | t :: rest => exact play_pos_nonneg t _ hp

theorem handleTrackCompletion_pos_nonneg (p : Player) (hp : 0 ≤ p.mCurrentPosition) :
    0 ≤ (handleTrackCompletion p).1.mCurrentPosition := by
  unfold handleTrackCompletion
  match p.mRepeatMode with
  | RepeatMode.Single => exact play_pos_nonneg _ _ hp
  | RepeatMode.All => exact next_pos_nonneg _ hp
  | RepeatMode.None => exact next_pos_nonneg _ hp

theorem applyOp_pos_nonneg (op : Op) (p : Player)
    (hp : 0 ≤ p.mCurrentPosition) (hop : opNonneg op) :
    0 ≤ ((applyOp op p).1).mCurrentPosition := by
  cases op with
  | play uri => exact play_pos_nonneg uri p hp
  | pause =>
      show 0 ≤ (pause p).1.mCurrentPosition
      unfold pause
      split
      · exact hp
      · exact hp
  | resume =>
      show 0 ≤ (resume p).1.mCurrentPosition
      unfold resume
      split
      · exact hp
      · exact hp
  | stop => exact stop_pos_nonneg p hp
  | next => exact next_pos_nonneg p hp
  | previous =>
      show 0 ≤ (previous p).1.mCurrentPosition
      unfold previous
      split
      · exact play_pos_nonneg _ p hp
      · exact hp
  | seek x => exact hop
  | enqueue uri => exact hp
  | clearQueue => exact hp
  | setRepeatMode m => exact hp
  | setShuffleMode b => exact hp
  | workerOpen ok =>
      show 0 ≤ (playbackWorkerOpen ok p).1.mCurrentPosition
      unfold playbackWorkerOpen
      split
      · exact hp
      · exact le_rfl
  | workerTick t =>
      show 0 ≤ (workerTick t p).1.mCurrentPosition
      unfold workerTick
      split
      · exact hop
      · exact hp
  | trackComplete => exact handleTrackCompletion_pos_nonneg p hp

/-- A player in the Playing state: `play "t"` on a fresh instance. -/
def playingPlayer : Player := (play "t" initialPlayer).1

/-- A player in the Paused state: `play "t"` then `pause`. -/
def pausedPlayer : Player := (pause playingPlayer).1

/-- A stopped player holding two queued tracks. -/
def twoQueuePlayer : Player := { initialPlayer with mQueue := ["a", "b"] }

/-- A player whose track "t" is playing in RepeatMode All with the queue
`play` left behind. -/
def repeatAllPlayer : Player :=
  { playingPlayer with mRepeatMode := RepeatMode.All }

/-- Claim C1: after `play uri` the queue holds exactly `[uri]` whatever
was enqueued before, the current track is `uri`, `isPlaying` is true,
and the fired events are the optional playback-stopped of the inner
`stop`, then track-changed(uri), then playback-started — so
track-changed precedes playback-started. -/
theorem play_resets_queue_and_starts (uri : String) (p : Player) :
    (play uri p).1.mQueue = [uri] ∧
    (play uri p).1.mCurrentTrack = uri ∧
    isPlaying (play uri p).1 = true ∧
    (play uri p).2 =
      (if p.mIsPlaying then [Event.stopped] else []) ++
        [Event.trackChanged uri, Event.started] := by
  refine ⟨rfl, rfl, rfl, ?_⟩
  unfold play stop
  by_cases hb : p.mIsPlaying = true
  · simp [hb]
  · simp [hb]

/-- Claim C2: with at most one queued entry, `next` behaves as `stop`:
the resulting state is Stopped, nothing is popped and nothing is played;
the exhausted queue raises no error. -/
theorem next_exhausted_stops (p : Player) (h : p.mQueue.length ≤ 1) :
    (next p).1.state = PlayerState.Stopped ∧
    (next p).1.mQueue = p.mQueue ∧
    (next p).2 = (stop p).2 := by
  unfold next
  rw [if_pos h]
  refine ⟨?_, ?_, rfl⟩
  · unfold stop Player.state
    split <;> simp
  · unfold stop
    split <;> simp

/-- Witness for C2 at a fresh player, whose queue is empty. -/
theorem next_exhausted_stops_witness :
    (next initialPlayer).1.state = PlayerState.Stopped ∧
    (next initialPlayer).1.mQueue = initialPlayer.mQueue ∧
    (next initialPlayer).2 = (stop initialPlayer).2 :=
  next_exhausted_stops initialPlayer (by decide)

/-- Counterexample to claim C3 as stated: from the Stopped initial
state, two consecutive `stop` calls fire zero playback-stopped
notifications, not exactly one. -/
theorem stop_twice_from_stopped_counterexample :
    (stop initialPlayer).2 ++ (stop (stop initialPlayer).1).2 = ([] : List Event) :=
  rfl

/-- Claim C3 amended: two consecutive `stop` calls fire at most one
playback-stopped notification — exactly one when the initial state is
not Stopped, none when it is; the second call is always a no-op; and
from any non-Stopped state `stop` clears the current track, resets the
position, moves to Stopped and fires playback-stopped. -/
theorem stop_idempotent (p : Player) :
    (p.state ≠ PlayerState.Stopped →
      (stop p).2 = [Event.stopped] ∧
      (stop p).1.mCurrentTrack = "" ∧
      (stop p).1.mCurrentPosition = 0 ∧
      (stop p).1.state = PlayerState.Stopped) ∧
    (p.state = PlayerState.Stopped → stop p = (p, [])) ∧
    stop (stop p).1 = ((stop p).1, []) ∧
    ((stop p).2 ++ (stop (stop p).1).2).length ≤ 1 := by
  unfold stop Player.state
  by_cases hb : p.mIsPlaying = true
  · simp [hb]
    split <;> simp
  · simp [hb]

/-- Witness for C3's amended theorem at a playing player. -/
theorem stop_idempotent_witness :
    (stop playingPlayer).2 = [Event.stopped] ∧
    stop (stop playingPlayer).1 = ((stop playingPlayer).1, []) :=
  ⟨((stop_idempotent playingPlayer).1 (by decide)).1,
   (stop_idempotent playingPlayer).2.2.1⟩

/-- Claim C4: in RepeatMode All, the completion branch appends the
current track to the queue's tail exactly once (its multiplicity in the
queue grows by one) and only then invokes `next`, which therefore sees
the extended queue. -/
theorem repeatAll_appends_exactly_once (p : Player) (h : p.mRepeatMode = RepeatMode.All) :
    (enqueue p.mCurrentTrack p).1.mQueue = p.mQueue ++ [p.mCurrentTrack] ∧
    (enqueue p.mCurrentTrack p).1.mQueue.count p.mCurrentTrack =
      p.mQueue.count p.mCurrentTrack + 1 ∧
    handleTrackCompletion p = next (enqueue p.mCurrentTrack p).1 := by
  refine ⟨rfl, ?_, ?_⟩
  · simp [enqueue]
  · simp only [handleTrackCompletion, h, enqueue]
    simp

/-- Witness for C4 at a playing player in RepeatMode All. -/
theorem repeatAll_appends_exactly_once_witness :
    (enqueue repeatAllPlayer.mCurrentTrack repeatAllPlayer).1.mQueue =
      repeatAllPlayer.mQueue ++ [repeatAllPlayer.mCurrentTrack] ∧
    handleTrackCompletion repeatAllPlayer =
      next (enqueue repeatAllPlayer.mCurrentTrack repeatAllPlayer).1 :=
  ⟨(repeatAll_appends_exactly_once repeatAllPlayer rfl).1,
   (repeatAll_appends_exactly_once repeatAllPlayer rfl).2.2⟩

/-- Claim C5: when the rendering backend's open fails, the worker's
entry path moves the state to Stopped and fires exactly one
playback-stopped event, then returns — a single attempt with no retry
and no fault surfaced to the caller of `play` (the model's worker is a
total function into states and events). -/
theorem openFailure_stops (openOk : Bool) (p : Player) (h : openOk = false) :
    (playbackWorkerOpen openOk p).1.state = PlayerState.Stopped ∧
    (playbackWorkerOpen openOk p).2 = [Event.stopped] := by
  subst h
  unfold playbackWorkerOpen Player.state
  simp

/-- Witness for C5: a failing open on the playing player. -/
theorem openFailure_stops_witness :
    (playbackWorkerOpen false playingPlayer).1.state = PlayerState.Stopped ∧
    (playbackWorkerOpen false playingPlayer).2 = [Event.stopped] :=
  openFailure_stops false playingPlayer rfl

/-- Counterexample to claim C6 as stated: a handle registered twice
loses both registrations at one `removeObserver` call — the
erase-remove idiom removes every structurally-equal match, not the
first match only (which `List.erase` models). -/
theorem removeObserver_removes_all_matches_counterexample :
    removeObserver 5 [5, 5] = [] ∧
    List.erase [5, 5] 5 = [5] ∧
    removeObserver 5 [5, 5] ≠ List.erase [5, 5] 5 := by
  decide

/-- Claim C6 amended: `removeObserver h` removes every
structurally-equal registration of `h` (none survives), leaves the
registration count of every other handle unchanged, and is a no-op when
`h` is absent — no error is raised and other observers' future
notifications are unaffected. -/
theorem removeObserver_spec (h : ℕ) (observers : List ℕ) :
    h ∉ removeObserver h observers ∧
    (∀ o, o ≠ h → (removeObserver h observers).count o = observers.count o) ∧
    (h ∉ observers → removeObserver h observers = observers) := by
  refine ⟨?_, ?_, ?_⟩
  · simp [removeObserver, List.mem_filter]
  · intro o ho
    induction observers with
    | nil => rfl
    | cons a l ih =>
        by_cases hah : a = h
        · subst hah
          simp [removeObserver, List.filter_cons, List.count_cons, ho, ih]
        · simp only [removeObserver, List.filter_cons] at *
          simp [bne_iff_ne, hah, List.count_cons, ih]
  · intro habs
    unfold removeObserver
    apply List.filter_eq_self.mpr
    intro a ha
    simp only [bne_iff_ne, ne_eq, decide_eq_true_eq]
    intro heq
    exact habs (heq ▸ ha)

/-- Witness for C6's amended theorem: both copies of handle 5 go, the
count of handle 3 is untouched, and removing the absent handle 7 is a
no-op. -/
theorem removeObserver_spec_witness :
    5 ∉ removeObserver 5 [5, 5, 3] ∧
    (removeObserver 5 [5, 5, 3]).count 3 = ([5, 5, 3] : List ℕ).count 3 ∧
    removeObserver 7 [5, 3] = [5, 3] :=
  ⟨(removeObserver_spec 5 [5, 5, 3]).1,
   (removeObserver_spec 5 [5, 5, 3]).2.1 3 (by decide),
   (removeObserver_spec 7 [5, 3]).2.2 (by decide)⟩

/-- Claim C7 is violated by the code: the notify loops wrap no handler
around the observer callbacks, so at the registry holding observer 1
(whose callback throws "boom") and the later observer 2, the exception
escapes to the notifying caller and observer 2 is never invoked. -/
theorem notify_propagates_failure_and_skips_rest :
    notifyAll [(1, Except.error "boom"), (2, Except.ok ())] = ([1], Option.some "boom") ∧
    (notifyAll [(1, Except.error "boom"), (2, Except.ok ())]).2 ≠ Option.none ∧
    2 ∉ (notifyAll [(1, Except.error "boom"), (2, Except.ok ())]).1 := by
  decide

/-- Counterexample to claim C8 as stated: `seek` stores its argument
directly, so the reachable state after `seek (-1)` on a fresh player has
`getCurrentPosition` negative. -/
theorem seek_negative_position_counterexample :
    getCurrentPosition (run [Op.seek (-1)] initialPlayer) < 0 := by
  decide

/-- Claim C8 amended: starting from any state with non-negative
position, every state reached by a sequence of operations whose `seek`
arguments and worker elapsed times are non-negative keeps
`0 ≤ getCurrentPosition`; a negative `seek` argument, however, is stored
directly and makes the position negative. -/
theorem run_nonneg_position (ops : List Op) (p : Player)
    (hp : 0 ≤ p.mCurrentPosition) (hops : ∀ op ∈ ops, opNonneg op) :
    0 ≤ getCurrentPosition (run ops p) := by
  induction ops generalizing p with
  | nil => exact hp
  | cons op rest ih =>
      have h1 : 0 ≤ ((applyOp op p).1).mCurrentPosition :=
        applyOp_pos_nonneg op p hp (hops op (List.mem_cons_self op rest))
      have h2 : ∀ o ∈ rest, opNonneg o := fun o ho => hops o (List.mem_cons_of_mem op ho)
      exact ih (applyOp op p).1 h1 h2

/-- Witness for C8's amended theorem on a concrete run. -/
theorem run_nonneg_position_witness :
    0 ≤ getCurrentPosition
        (run [Op.play "a", Op.seek 2, Op.pause, Op.workerTick 3, Op.stop] initialPlayer) :=
  run_nonneg_position _ initialPlayer (by decide) (by decide)

/-- Claim C9: after `play uri`, the pair `pause` then `resume` restores
`isPlaying = true` and fires no track-changed event; and `resume` moves
Paused to Playing firing exactly playback-started, while from any
non-Paused state it is a no-op firing nothing. -/
theorem pause_resume_restores_playing (uri : String) (p q : Player) :
    isPlaying (resume (pause (play uri p).1).1).1 = true ∧
    (∀ u, Event.trackChanged u ∉
        (pause (play uri p).1).2 ++ (resume (pause (play uri p).1).1).2) ∧
    (q.state = PlayerState.Paused →
      resume q = ({ q with mIsPaused := false }, [Event.started])) ∧
    (q.state ≠ PlayerState.Paused → resume q = (q, [])) := by
  refine ⟨rfl, ?_, ?_, ?_⟩
  · intro u
    show Event.trackChanged u ∉ [Event.paused] ++ [Event.started]
    simp
  · intro hq
    unfold Player.state at hq
    unfold resume
    by_cases h1 : q.mIsPlaying = true
    · by_cases h2 : q.mIsPaused = true
      · simp [h1, h2]
      · simp [h1, h2] at hq
    · simp [h1] at hq
  · intro hq
    unfold Player.state at hq
    unfold resume
    by_cases h1 : q.mIsPlaying = true
    · by_cases h2 : q.mIsPaused = true
      · simp [h1, h2] at hq
      · simp [h1, h2]
    · simp [h1]

/-- Witness for C9 at the fresh player, the paused player and the
stopped player. -/
theorem pause_resume_restores_playing_witness :
    isPlaying (resume (pause (play "t" initialPlayer).1).1).1 = true ∧
    resume pausedPlayer = ({ pausedPlayer with mIsPaused := false }, [Event.started]) ∧
    resume initialPlayer = (initialPlayer, []) :=
  ⟨(pause_resume_restores_playing "t" initialPlayer pausedPlayer).1,
   (pause_resume_restores_playing "t" initialPlayer pausedPlayer).2.2.1 (by decide),
   (pause_resume_restores_playing "t" initialPlayer initialPlayer).2.2.2 (by decide)⟩

/-- Claim C10: with at least two queued entries, `next` pops the head
and plays it, so afterwards the queue holds exactly that former head
(every other enqueued entry is discarded), the head is the current
track, and the player is playing — `next` replays the head rather than
advancing to a later entry. -/
theorem next_replays_queue_head (p : Player) (h : 2 ≤ p.mQueue.length) :
    ∃ hd tl, p.mQueue = hd :: tl ∧
      next p = play hd { p with mQueue := tl } ∧
      (next p).1.mQueue = [hd] ∧
      (next p).1.mCurrentTrack = hd ∧
      isPlaying (next p).1 = true := by
  obtain ⟨hd, tl, hq⟩ : ∃ hd tl, p.mQueue = hd :: tl := by
    cases hl : p.mQueue with
    | nil => rw [hl] at h; simp at h
    | cons a l => exact ⟨a, l, rfl⟩
  have hlen : ¬ p.mQueue.length ≤ 1 := by omega
  have key : next p = play hd { p with mQueue := tl } := by
    unfold next
    rw [if_neg hlen, hq]
  refine ⟨hd, tl, hq, key, ?_, ?_, ?_⟩
  · rw [key]
    exact rfl
  · rw [key]
    exact rfl
  · rw [key]
    exact rfl

/-- Witness for C10 at the stopped player queueing "a" then "b". -/
theorem next_replays_queue_head_witness :
    ∃ hd tl, twoQueuePlayer.mQueue = hd :: tl ∧
      next twoQueuePlayer = play hd { twoQueuePlayer with mQueue := tl } ∧
      (next twoQueuePlayer).1.mQueue = [hd] ∧
      (next twoQueuePlayer).1.mCurrentTrack = hd ∧
      isPlaying (next twoQueuePlayer).1 = true :=
  next_replays_queue_head twoQueuePlayer (by decide)

end Sonora
